import Mathlib

/-!
Verification development for the Smart Shopper crawler/scheduler/store.

The definitions below are a shallow embedding of the Python source under
`backend/scrapers/crawl4ai_scrapers/`:
- `database.py` (`ProductDatabase`): an SQLite-backed product store, modelled
  here as an in-memory state with a `products` table (whose `id` column is the
  PRIMARY KEY) and an fts5 `product_search` table (no uniqueness constraint,
  hence a plain list).
- `base_crawler.py` (`BaseCrawler.crawl_products`): the recursive retry loop,
  modelled as a pure recursion carrying the crawler stats and the rate
  limiter's `base_delay` window, emitting an event trace.
- `scheduler.py` (`CrawlJob`, `CrawlScheduler`): job due-ness, the checker
  pass, the job-run boundary and the worker loop.
-/

namespace SmartShopper

/-- The `price` field of a product dict: either a nested object with a
`current` value and a `currency` string, a bare number, or absent/other
(anything that is neither a dict nor a number is treated as no price,
exactly as in `upsert_product`). Numeric values are modelled as rationals. -/
inductive PriceField where
  | obj (current : Option ℚ) (currency : String)
  | num (n : ℚ)
  | none
deriving DecidableEq, Repr

/-- A product data dictionary as consumed by `ProductDatabase.upsert_product`.
A missing string field is modelled as `""`, matching `dict.get(key, "")`.
The record itself doubles as the opaque JSON payload stored in the `data`
column (in the source, `json.dumps(product_data)`). -/
structure ProductData where
  url : String
  id : String
  retailer : String
  title : String
  description : String
  brand : String
  category : String
  price : PriceField
deriving DecidableEq, Repr

/-- Price extraction from `upsert_product`: a dict yields its `current` entry,
a bare number yields itself, anything else yields no price. -/
def extractPrice : PriceField → Option ℚ
  | .obj current _ => current
  | .num n => some n
  | .none => Option.none

/-- Python `s.split("/")` on a list of characters: always returns a nonempty
list of segments, `[""]` for the empty string. -/
def pySplitSlash : List Char → List (List Char)
  | [] => [[]]
  | c :: rest =>
    match pySplitSlash rest with
    | [] => [[c]]
    | h :: t => if c = '/' then [] :: h :: t else (c :: h) :: t

/-- The substring after the final `'/'` of a string (the whole string when it
contains no `'/'`), as a recursion on the character list. -/
def afterLastSlash : List Char → List Char
  | [] => []
  | c :: rest =>
    if '/' ∈ rest then afterLastSlash rest
    else if c = '/' then rest
    else c :: rest

/-- The last element of Python's `url.split("/")`, i.e.
`url_parts[-1] if url_parts else ""` from `upsert_product`. -/
def lastUrlSegment (url : String) : String :=
  ((pySplitSlash url.toList).getLastD []).asString

/-- Product identity derivation from `upsert_product` / `bulk_upsert_products`:
the explicit `id` field when non-empty, else the last segment of the URL,
else the millisecond-timestamp fallback `str(int(time.time() * 1000))`. -/
def derive_product_id (rec : ProductData) (now_ms : Nat) : String :=
  if rec.id ≠ "" then rec.id
  else if lastUrlSegment rec.url ≠ "" then lastUrlSegment rec.url
  else toString now_ms

/-- A row of the `products` table (schema from `_initialize_db`; the `data`
column carries the full product dict). -/
structure ProductRow where
  id : String
  retailer : String
  title : String
  description : String
  price : Option ℚ
  brand : String
  category : String
  url : String
  data : ProductData
  created_at : Nat
  updated_at : Nat
deriving DecidableEq, Repr

/-- A row of the fts5 `product_search` table. -/
structure SearchRow where
  id : String
  title : String
  description : String
  brand : String
  category : String
deriving DecidableEq, Repr

/-- The database state: the `products` table and the `product_search` index.
`products.id` is the PRIMARY KEY in the schema, so a reachable state has
pairwise distinct row ids (`DbWF` below); the fts5 table has no constraint. -/
structure DbState where
  products : List ProductRow
  search : List SearchRow
deriving DecidableEq, Repr

/-- Well-formedness enforced by the schema: `id` is the PRIMARY KEY of
`products`, so ids are pairwise distinct. -/
def DbWF (db : DbState) : Prop := (db.products.map (·.id)).Nodup

/-- The search row written by an upsert for a given id. -/
def searchRowOf (pid : String) (rec : ProductData) : SearchRow :=
  { id := pid, title := rec.title, description := rec.description,
    brand := rec.brand, category := rec.category }

/-- The body of `upsert_product` after the URL check: derive the id, extract
the fields, `UPDATE` the row when a row with that id exists else `INSERT` it,
then `DELETE`+`INSERT` the search-index entry for that id. `now` is
`int(time.time())`, `now_ms` the millisecond clock used by the id fallback. -/
def upsert_step (db : DbState) (rec : ProductData) (now now_ms : Nat) : DbState :=
  let pid := derive_product_id rec now_ms
  let price := extractPrice rec.price
  let exists_ := db.products.any (fun r => r.id = pid)
  let products' :=
    if exists_ then
      db.products.map (fun r =>
        if r.id = pid then
          { r with
              retailer := rec.retailer, title := rec.title,
              description := rec.description, price := price,
              brand := rec.brand, category := rec.category,
              url := rec.url, data := rec, updated_at := now }
        else r)
    else
      db.products ++ [{ id := pid, retailer := rec.retailer,
                        title := rec.title, description := rec.description,
                        price := price, brand := rec.brand,
                        category := rec.category, url := rec.url, data := rec,
                        created_at := now, updated_at := now }]
  let search' := db.search.filter (fun s => s.id ≠ pid) ++ [searchRowOf pid rec]
  { products := products', search := search' }

/-- `ProductDatabase.upsert_product`: refuse a record with a missing or empty
URL (returning `False` before touching the database), otherwise perform the
upsert and return `True`. -/
def upsert_product (db : DbState) (rec : ProductData) (now now_ms : Nat) :
    Bool × DbState :=
  if rec.url = "" then (false, db)
  else (true, upsert_step db rec now now_ms)

/-- The loop body of `bulk_upsert_products`: a record without a URL is
counted as a failure and skipped (`continue`), a valid record is upserted
with the same body as `upsert_product` and counted as a success. -/
def bulk_step (now now_ms : Nat) (acc : (Nat × Nat) × DbState)
    (rec : ProductData) : (Nat × Nat) × DbState :=
  if rec.url = "" then ((acc.1.1, acc.1.2 + 1), acc.2)
  else ((acc.1.1 + 1, acc.1.2), upsert_step acc.2 rec now now_ms)

/-- `ProductDatabase.bulk_upsert_products`: fold the per-record body over the
batch inside one transaction; per-record failures are caught individually and
do not abort the rest. Returns `(success_count, failure_count)` and the
final state. -/
def bulk_upsert_products (db : DbState) (recs : List ProductData)
    (now now_ms : Nat) : (Nat × Nat) × DbState :=
  recs.foldl (bulk_step now now_ms) ((0, 0), db)

/-- `ProductDatabase.get_product_by_id`: `SELECT data FROM products WHERE
id = ?` and parse the JSON payload; `fetchone` on a PRIMARY-KEY lookup is the
first (unique) matching row. -/
def get_product_by_id (db : DbState) (pid : String) : Option ProductData :=
  (db.products.find? (fun r => r.id = pid)).map (·.data)

/-- Python truthiness of an optional string argument, as in `if query:` /
`if retailer:` inside `find_products`: given and non-empty. -/
def truthy : Option String → Bool
  | Option.none => false
  | some s => s ≠ ""

/-- The SQL price-range conditions `price >= ?` / `price <= ?` from
`find_products`; a NULL price satisfies neither comparison. -/
def priceWhere (min_price max_price : Option ℚ) (r : ProductRow) : Bool :=
  (match min_price with
   | Option.none => true
   | some m => match r.price with
     | Option.none => false
     | some p => decide (m ≤ p)) &&
  (match max_price with
   | Option.none => true
   | some m => match r.price with
     | Option.none => false
     | some p => decide (p ≤ m))

/-- The exact-match filters `retailer = ?`, `category = ?`, `brand = ?` from
`find_products`, each applied only when its argument is truthy. -/
def exactWhere (retailer category brand : Option String) (r : ProductRow) : Bool :=
  (if truthy retailer then r.retailer = retailer.getD "" else true) &&
  (if truthy category then r.category = category.getD "" else true) &&
  (if truthy brand then r.brand = brand.getD "" else true)

/-- Insertion into a list held in descending `updated_at` order. -/
def insertByUpdatedDesc (r : ProductRow) : List ProductRow → List ProductRow
  | [] => [r]
  | x :: xs =>
    if x.updated_at ≤ r.updated_at then r :: x :: xs
    else x :: insertByUpdatedDesc r xs

/-- `ORDER BY updated_at DESC` as an insertion sort (SQLite fixes no tie
order; any descending arrangement refines it). -/
def sortByUpdatedDesc : List ProductRow → List ProductRow
  | [] => []
  | r :: rs => insertByUpdatedDesc r (sortByUpdatedDesc rs)

/-- The tail of `find_products` once the WHERE predicate is fixed: the total
count ignoring pagination, and the `data` payloads of the rows ordered by
`updated_at` descending with `LIMIT ? OFFSET ?` applied. -/
def query_rows (db : DbState) (pred : ProductRow → Bool) (limit offset : Nat) :
    List ProductData × Nat :=
  let rows := db.products.filter pred
  ((((sortByUpdatedDesc rows).drop offset).take limit).map (·.data), rows.length)

/-- `ProductDatabase.find_products`. The fts5 MATCH semantics live in SQLite,
outside this repository, so the match relation is a parameter `fts`: the ids
of the search rows matching the query are collected first, an empty match set
short-circuits to `([], 0)`, otherwise `id IN (...)` is intersected with the
exact and price filters. -/
def find_products (fts : SearchRow → String → Bool) (db : DbState)
    (query retailer category brand : Option String)
    (min_price max_price : Option ℚ) (limit offset : Nat) :
    List ProductData × Nat :=
  if truthy query then
    let matching_ids :=
      (db.search.filter (fun s => fts s (query.getD ""))).map (·.id)
    if matching_ids = [] then ([], 0)
    else
      query_rows db
        (fun r => decide (r.id ∈ matching_ids) &&
          exactWhere retailer category brand r &&
          priceWhere min_price max_price r)
        limit offset
  else
    query_rows db
      (fun r => exactWhere retailer category brand r &&
        priceWhere min_price max_price r)
      limit offset

/-- The statistics dict initialized in `BaseCrawler.__init__`, restricted to
the fields read or written by `crawl_products`. -/
structure CrawlStats where
  urls_processed : Nat
  successful : Nat
  failed : Nat
  products_found : Nat
  retry_count : Nat
  rate_limited : Nat
deriving DecidableEq, Repr

/-- The `rate_limit_codes` configured on the crawler's `RateLimiter`. -/
def rate_limit_codes : List Nat := [429, 503, 403, 520, 521, 522]

/-- Outcome of fetching one URL and (on fetch success) running
`process_result` on it: a successful fetch carries the extracted product or
`none` when extraction yielded nothing (or raised), a failed fetch carries
its optional status code. The fetch engine is an external collaborator, so
outcomes enter the model as a function of the URL. -/
inductive FetchOutcome where
  | success (extracted : Option ProductData)
  | failure (status_code : Option Nat)
deriving DecidableEq, Repr

/-- Accumulator of the per-result classification loop in `crawl_products`. -/
structure ClassifyAcc where
  results : List ProductData
  successful : Nat
  failed : Nat
  products_found : Nat
  rate_limited : Nat
  retry_urls : List String
deriving DecidableEq, Repr

/-- One iteration of the classification loop in `crawl_products`: a success
with extracted data is appended to the results and counted; a success without
data counts as failed and joins the retry set; a fetch failure counts as
failed, additionally as rate-limited when its status code is in
`rate_limit_codes`, and joins the retry set. -/
def classify_step (outcome : String → FetchOutcome) (acc : ClassifyAcc)
    (u : String) : ClassifyAcc :=
  match outcome u with
  | .success (some p) =>
      { acc with
          results := acc.results ++ [p], successful := acc.successful + 1,
          products_found := acc.products_found + 1 }
  | .success Option.none =>
      { acc with
          failed := acc.failed + 1, retry_urls := acc.retry_urls ++ [u] }
  | .failure sc =>
      let is_rate_limited := sc.any (fun c => decide (c ∈ rate_limit_codes))
      { acc with
          failed := acc.failed + 1,
          rate_limited := acc.rate_limited + (if is_rate_limited then 1 else 0),
          retry_urls := acc.retry_urls ++ [u] }

/-- The whole classification loop over a batch of crawl results. -/
def classify_results (outcome : String → FetchOutcome) (urls : List String) :
    ClassifyAcc :=
  urls.foldl (classify_step outcome) ⟨[], 0, 0, 0, 0, []⟩

/-- Crawler state threaded through `crawl_products`: the stats dict and the
rate limiter's `base_delay` window (a pair of delays in seconds). -/
structure CrawlerState where
  stats : CrawlStats
  base_delay : ℚ × ℚ
deriving DecidableEq, Repr

/-- Observable events of one `crawl_products` call: the sleeps it performs
and the dispatch rounds it runs, each round recording the URL batch and the
`base_delay` window in force while it runs. -/
inductive CrawlEvent where
  | sleep (seconds : Nat)
  | round (urls : List String) (delay : ℚ × ℚ)
deriving DecidableEq, Repr

/-- `BaseCrawler.crawl_products`: dispatch the batch, classify every result,
fold the counts into the stats (`urls_processed` is assigned, not added);
then, when the retry set is non-empty and `retry_count < 3`, increment the
shared `retry_count`, widen `base_delay` by the factor `retry_count + 1`,
sleep `5 * retry_count` seconds, recurse on exactly the retry set, extend the
results with the retry results, and restore the original `base_delay` in a
`finally`. The guard reads the stats dict's `retry_count`, which the
classification loop does not touch, so it equals the incoming
`st.stats.retry_count`. -/
def crawl_products (outcome : String → FetchOutcome) (urls : List String)
    (st : CrawlerState) : List ProductData × CrawlerState × List CrawlEvent :=
  if urls = [] then ([], st, [])
  else
    let acc := classify_results outcome urls
    let stats1 : CrawlStats :=
      { st.stats with
          urls_processed := urls.length,
          successful := st.stats.successful + acc.successful,
          failed := st.stats.failed + acc.failed,
          products_found := st.stats.products_found + acc.products_found,
          rate_limited := st.stats.rate_limited + acc.rate_limited }
    if h : acc.retry_urls ≠ [] ∧ st.stats.retry_count < 3 then
      let rc := st.stats.retry_count + 1
      let factor : ℚ := (rc : ℚ) + 1
      let next :=
        crawl_products outcome acc.retry_urls
          { stats := { stats1 with retry_count := rc },
            base_delay := (st.base_delay.1 * factor, st.base_delay.2 * factor) }
      (acc.results ++ next.1,
       { next.2.1 with base_delay := st.base_delay },
       CrawlEvent.round urls st.base_delay ::
         CrawlEvent.sleep (5 * rc) :: next.2.2)
    else
      (acc.results, { stats := stats1, base_delay := st.base_delay },
       [CrawlEvent.round urls st.base_delay])
termination_by 3 - st.stats.retry_count
decreasing_by simp_all; omega

/-- A per-run crawl summary with the store-write counts attached by
`CrawlJob.run` (`database_success` / `database_failure`). -/
structure RunSummary where
  retailer : String
  database_success : Nat
  database_failure : Nat
deriving DecidableEq, Repr

/-- The `stats` attribute of a `CrawlJob`: empty at creation, a summary after
a completed run, an error payload (message and traceback) after a failure. -/
inductive JobStats where
  | empty
  | summary (s : RunSummary)
  | errorPayload (msg traceback : String)
deriving DecidableEq, Repr

/-- Scheduling state of a `CrawlJob` (the fields touched by `is_due`,
`run` and the scheduler loops). Times are seconds since the epoch. -/
structure CrawlJobState where
  retailer_name : String
  interval_hours : Nat
  enabled : Bool
  running : Bool
  last_run : Option Nat
  next_run : Nat
  status : String
  stats : JobStats
deriving DecidableEq, Repr

/-- `CrawlJob.is_due`: enabled, not running, and `datetime.now()` at or past
`next_run`. -/
def is_due (now : Nat) (j : CrawlJobState) : Bool :=
  j.enabled && !j.running && decide (j.next_run ≤ now)

/-- One polling pass of `CrawlScheduler._checker_loop`: every job of the jobs
map that `is_due` is put on the FIFO work queue, in order; nothing else about
a job changes, and nothing is removed from the queue. -/
def checker_pass (now : Nat) (jobs : List CrawlJobState)
    (queue : List CrawlJobState) : List CrawlJobState :=
  queue ++ jobs.filter (is_due now)

/-- `CrawlJob.run`: set `running`/`status`, record `last_run`, advance
`next_run` by the interval; then perform the crawl-and-store work — abstracted
here by its outcome `work`, since it runs external fetch machinery — and on
success record the summary with `status = "completed"`, while any exception is
caught and recorded as an error payload with `status = "failed"`; the
`finally` clears `running` on every path. -/
def job_run (j : CrawlJobState) (now : Nat)
    (work : Except String RunSummary) : CrawlJobState :=
  let j1 := { j with
                running := true, status := "running", last_run := some now,
                next_run := now + j.interval_hours * 3600 }
  let j2 :=
    match work with
    | .ok s => { j1 with stats := JobStats.summary s, status := "completed" }
    | .error e =>
        { j1 with
            stats := JobStats.errorPayload
              ("Error running crawl job for " ++ j.retailer_name ++ ": " ++ e) e,
            status := "failed" }
  { j2 with running := false }

/-- `CrawlScheduler._worker_loop` over a queue snapshot: jobs are dequeued in
FIFO order and each is run inside the loop's own try/except, so the loop is a
total function and processes every queued job, whatever each job's outcome.
Each job's crawl-and-store work is abstracted by its outcome, paired with the
job in the queue. -/
def worker_loop (now : Nat)
    (items : List (CrawlJobState × Except String RunSummary)) :
    List CrawlJobState :=
  items.map (fun it => job_run it.1 now it.2)

/-- Whether a fetch outcome counts as rate limited in the failure branch of
`crawl_products` (`status_code in self.rate_limiter.rate_limit_codes`; a
missing status code never does). -/
def isRateLimitedOutcome : FetchOutcome → Bool
  | .failure (some c) => decide (c ∈ rate_limit_codes)
  | _ => false

/-- Recognizer for dispatch-round events in a crawl trace. -/
def isRoundEvent : CrawlEvent → Bool
  | .round _ _ => true
  | _ => false

/-- The crawler state handed to a retry round of `crawl_products`: the
classified counts folded into the stats, `urls_processed` assigned, the
shared `retry_count` incremented, and the `base_delay` window multiplied by
the factor `retry_count + 1`. -/
def retry_round_state (outcome : String → FetchOutcome) (urls : List String)
    (st : CrawlerState) : CrawlerState :=
  let acc := classify_results outcome urls
  let rc := st.stats.retry_count + 1
  { stats :=
      { urls_processed := urls.length,
        successful := st.stats.successful + acc.successful,
        failed := st.stats.failed + acc.failed,
        products_found := st.stats.products_found + acc.products_found,
        retry_count := rc,
        rate_limited := st.stats.rate_limited + acc.rate_limited },
    base_delay := (st.base_delay.1 * ((rc : ℚ) + 1),
                   st.base_delay.2 * ((rc : ℚ) + 1)) }

/-- A sample record mirroring the test product in `database.py`'s
`__main__` block (price 99.99 ZAR, id left to URL derivation). -/
def sampleRec : ProductData :=
  { url := "https://www.example.com/product/123", id := "",
    retailer := "TestRetailer", title := "Test Product",
    description := "This is a test product", brand := "TestBrand",
    category := "TestCategory", price := .obj (some (9999 / 100)) "ZAR" }

/-- A record whose `url` field is empty, as rejected by `upsert_product`. -/
def noUrlRec : ProductData :=
  { url := "", id := "p1", retailer := "TestRetailer", title := "No URL",
    description := "", brand := "", category := "", price := .none }

/-- A sample job as built by `CrawlScheduler.add_job` for an enabled
retailer whose `next_run` (set to creation time) is already past. -/
def sampleJob : CrawlJobState :=
  { retailer_name := "Checkers", interval_hours := 24, enabled := true,
    running := false, last_run := Option.none, next_run := 0,
    status := "idle", stats := .empty }

section Lemmas

/-- Python's split never yields an empty list of segments. -/
theorem pySplitSlash_ne_nil (l : List Char) : pySplitSlash l ≠ [] := by
  cases l with
  | nil => simp [pySplitSlash]
  | cons c rest =>
    simp only [pySplitSlash]
    cases h : pySplitSlash rest with
    | nil => simp
    | cons a t => by_cases hc : c = '/' <;> simp [hc]

/-- Splitting a string without a slash yields that single segment. -/
theorem pySplitSlash_no_slash (l : List Char) (h : '/' ∉ l) :
    pySplitSlash l = [l] := by
  induction l with
  | nil => rfl
  | cons c rest ih =>
    have hc : c ≠ '/' := fun hh => h (hh ▸ List.mem_cons_self c rest)
    have hr : '/' ∉ rest := fun hm => h (List.mem_cons_of_mem _ hm)
    simp [pySplitSlash, ih hr, hc]

/-- A string containing a slash splits into at least two segments. -/
theorem two_le_length_pySplitSlash (l : List Char) (h : '/' ∈ l) :
    2 ≤ (pySplitSlash l).length := by
  induction l with
  | nil => cases h
  | cons c rest ih =>
    obtain ⟨hd, tl, hsp⟩ : ∃ hd tl, pySplitSlash rest = hd :: tl := by
      cases hsp : pySplitSlash rest with
      | nil => exact absurd hsp (pySplitSlash_ne_nil rest)
      | cons a b => exact ⟨a, b, rfl⟩
    by_cases hc : c = '/'
    · simp [pySplitSlash, hsp, hc]
    · have hm : '/' ∈ rest := by
        rcases List.mem_cons.mp h with h1 | h2
        · exact absurd h1.symm hc
        · exact h2
      have h2 := ih hm
      rw [hsp] at h2
      simp only [pySplitSlash, hsp, hc, if_neg hc, List.length_cons] at h2 ⊢
      simpa using h2

/-- On a string without a slash, `afterLastSlash` is the identity. -/
theorem afterLastSlash_no_slash (l : List Char) (h : '/' ∉ l) :
    afterLastSlash l = l := by
  induction l with
  | nil => rfl
  | cons c rest ih =>
    have hc : c ≠ '/' := fun hh => h (hh ▸ List.mem_cons_self c rest)
    have hr : '/' ∉ rest := fun hm => h (List.mem_cons_of_mem _ hm)
    simp [afterLastSlash, hr, hc]

/-- The last segment of Python's split is the substring after the final
slash. -/
theorem getLastD_pySplitSlash (l : List Char) :
    (pySplitSlash l).getLastD [] = afterLastSlash l := by
  induction l with
  | nil => rfl
  | cons c rest ih =>
    by_cases hm : '/' ∈ rest
    · cases hsp : pySplitSlash rest with
      | nil => exact absurd hsp (pySplitSlash_ne_nil rest)
      | cons hd tl =>
        have hlen := two_le_length_pySplitSlash rest hm
        rw [hsp] at hlen
        obtain ⟨a, t, rfl⟩ : ∃ a t, tl = a :: t := by
          cases tl with
          | nil => simp at hlen
          | cons a t => exact ⟨a, t, rfl⟩
        have hRHS : afterLastSlash (c :: rest) = afterLastSlash rest := by
          simp [afterLastSlash, hm]
        rw [hRHS, ← ih, hsp]
        by_cases hc : c = '/'
        · simp [pySplitSlash, hsp, hc, List.getLastD_cons]
        · simp [pySplitSlash, hsp, hc, List.getLastD_cons]
    · have hsp : pySplitSlash rest = [rest] := pySplitSlash_no_slash rest hm
      have hal : afterLastSlash rest = rest := afterLastSlash_no_slash rest hm
      by_cases hc : c = '/'
      · simp [pySplitSlash, hsp, hc, afterLastSlash, hm]
      · simp [pySplitSlash, hsp, hc, afterLastSlash, hm, hal]

/-- `lastUrlSegment` computes the substring after the final slash. -/
theorem lastUrlSegment_eq (url : String) :
    lastUrlSegment url = (afterLastSlash url.toList).asString := by
  unfold lastUrlSegment
  rw [getLastD_pySplitSlash]

/-- A character list renders to the empty string exactly when it is empty. -/
theorem asString_eq_empty (l : List Char) : l.asString = "" ↔ l = [] := by
  constructor
  · intro h
    have : (List.asString l).data = ("" : String).data := by rw [h]
    simpa [List.asString] using this
  · intro h
    simp [h, List.asString]

/-- In a list whose ids are pairwise distinct, at most one row carries a
given id. -/
theorem countP_id_le_one (l : List ProductRow) (pid : String)
    (h : (l.map (·.id)).Nodup) :
    l.countP (fun r => r.id = pid) ≤ 1 := by
  induction l with
  | nil => simp
  | cons r t ih =>
    rw [List.map_cons, List.nodup_cons] at h
    by_cases hr : r.id = pid
    · have hz : t.countP (fun r => r.id = pid) = 0 := by
        rw [List.countP_eq_zero]
        intro x hx
        simp only [decide_eq_true_eq]
        intro hxid
        exact h.1 (by
          rw [hr, ← hxid]
          exact List.mem_map_of_mem (·.id) hx)
      simp [List.countP_cons, hr, hz]
    · simp only [List.countP_cons, hr, decide_eq_true_eq, if_neg hr]
      simpa using ih h.2

/-- The update branch of an upsert does not change any row's id. -/
theorem upsert_update_id_eq (pid : String) (rec : ProductData) (now : Nat)
    (r : ProductRow) :
    (if r.id = pid then
      { r with
          retailer := rec.retailer, title := rec.title,
          description := rec.description, price := extractPrice rec.price,
          brand := rec.brand, category := rec.category,
          url := rec.url, data := rec, updated_at := now } else r).id = r.id := by
  by_cases h : r.id = pid <;> simp [h]

/-- After `upsert_step`, exactly one `products` row carries the derived id
(this needs the PRIMARY KEY well-formedness of the incoming state). -/
theorem upsert_step_count_products (db : DbState) (rec : ProductData)
    (now now_ms : Nat) (hwf : DbWF db) :
    (upsert_step db rec now now_ms).products.countP
      (fun r => r.id = derive_product_id rec now_ms) = 1 := by
  set pid := derive_product_id rec now_ms with hpid
  simp only [upsert_step]
  by_cases hex : db.products.any (fun r => r.id = pid)
  · simp only [hex, if_true]
    rw [List.countP_map]
    have hcongr :
        ((fun r : ProductRow => decide (r.id = pid)) ∘
          (fun r : ProductRow =>
            if r.id = pid then
              { r with
                  retailer := rec.retailer, title := rec.title,
                  description := rec.description,
                  price := extractPrice rec.price,
                  brand := rec.brand, category := rec.category,
                  url := rec.url, data := rec, updated_at := now }
            else r)) =
        fun r : ProductRow => decide (r.id = pid) := by
      funext r
      simp only [Function.comp]
      rw [upsert_update_id_eq pid rec now r]
    rw [hcongr]
    have hle := countP_id_le_one db.products pid hwf
    have hge : 0 < db.products.countP (fun r => r.id = pid) := by
      rw [List.countP_pos_iff]
      rcases List.any_eq_true.mp hex with ⟨r, hr, hpr⟩
      exact ⟨r, hr, hpr⟩
    omega
  · simp only [hex, if_false, Bool.false_eq_true]
    rw [List.countP_append]
    have hnone : ∀ y ∈ db.products, ¬ y.id = pid := by simpa using hex
    have hz : db.products.countP (fun r => r.id = pid) = 0 := by
      rw [List.countP_eq_zero]
      intro r hr
      simpa using hnone r hr
    simp [hz]

/-- After `upsert_step`, exactly one search-index entry carries the derived
id: all prior entries for the id are deleted, one is reinserted. -/
theorem upsert_step_count_search (db : DbState) (rec : ProductData)
    (now now_ms : Nat) :
    (upsert_step db rec now now_ms).search.countP
      (fun s => s.id = derive_product_id rec now_ms) = 1 := by
  set pid := derive_product_id rec now_ms with hpid
  simp only [upsert_step]
  rw [List.countP_append]
  have hz : (db.search.filter (fun s => s.id ≠ pid)).countP
      (fun s => s.id = pid) = 0 := by
    rw [List.countP_eq_zero]
    intro s hs
    have := (List.mem_filter.mp hs).2
    simpa using this
  simp [hz, searchRowOf]

/-- `upsert_step` preserves the PRIMARY KEY well-formedness. -/
theorem upsert_step_wf (db : DbState) (rec : ProductData) (now now_ms : Nat)
    (hwf : DbWF db) : DbWF (upsert_step db rec now now_ms) := by
  set pid := derive_product_id rec now_ms with hpid
  simp only [DbWF, upsert_step]
  by_cases hex : db.products.any (fun r => r.id = pid)
  · simp only [hex, if_true, List.map_map]
    have hcongr :
        ((fun r : ProductRow => r.id) ∘
          (fun r : ProductRow =>
            if r.id = pid then
              { r with
                  retailer := rec.retailer, title := rec.title,
                  description := rec.description,
                  price := extractPrice rec.price,
                  brand := rec.brand, category := rec.category,
                  url := rec.url, data := rec, updated_at := now }
            else r)) =
        fun r : ProductRow => r.id := by
      funext r
      simp only [Function.comp]
      rw [upsert_update_id_eq pid rec now r]
    rw [hcongr]
    exact hwf
  · simp only [hex, if_false, Bool.false_eq_true, List.map_append]
    rw [List.nodup_append]
    refine ⟨hwf, by simp, ?_⟩
    intro x hx
    simp only [List.map_cons, List.map_nil, List.mem_singleton]
    intro hxl
    rcases List.mem_map.mp hx with ⟨r, hr, hrid⟩
    have hnone : ∀ y ∈ db.products, ¬ y.id = pid := by simpa using hex
    exact hnone r hr (by rw [hrid, hxl])

/-- `upsert_step` leaves a row with the derived id in the table. -/
theorem upsert_step_hasId_new (db : DbState) (rec : ProductData)
    (now now_ms : Nat) :
    ∃ r ∈ (upsert_step db rec now now_ms).products,
      r.id = derive_product_id rec now_ms := by
  set pid := derive_product_id rec now_ms with hpid
  simp only [upsert_step]
  by_cases hex : db.products.any (fun r => r.id = pid)
  · simp only [hex, if_true]
    rcases List.any_eq_true.mp hex with ⟨r, hr, hpr⟩
    refine ⟨_, List.mem_map_of_mem _ hr, ?_⟩
    rw [upsert_update_id_eq pid rec now r]
    simpa using hpr
  · simp only [hex, if_false, Bool.false_eq_true]
    exact ⟨_, List.mem_append_right _ (List.mem_singleton_self _), rfl⟩

/-- `upsert_step` never removes an id from the table. -/
theorem upsert_step_hasId_mono (db : DbState) (rec : ProductData)
    (now now_ms : Nat) (r : ProductRow) (hr : r ∈ db.products) :
    ∃ r' ∈ (upsert_step db rec now now_ms).products, r'.id = r.id := by
  set pid := derive_product_id rec now_ms with hpid
  simp only [upsert_step]
  by_cases hex : db.products.any (fun r => r.id = pid)
  · simp only [hex, if_true]
    exact ⟨_, List.mem_map_of_mem _ hr, upsert_update_id_eq pid rec now r⟩
  · simp only [hex, if_false, Bool.false_eq_true]
    exact ⟨r, List.mem_append_left _ hr, rfl⟩

/-- After `upsert_step`, every row carrying the derived id holds the upserted
record as its `data` payload. -/
theorem upsert_step_data (db : DbState) (rec : ProductData)
    (now now_ms : Nat) :
    ∀ r ∈ (upsert_step db rec now now_ms).products,
      r.id = derive_product_id rec now_ms → r.data = rec := by
  set pid := derive_product_id rec now_ms with hpid
  simp only [upsert_step]
  by_cases hex : db.products.any (fun r => r.id = pid)
  · simp only [hex, if_true]
    intro r' hr' hid'
    rcases List.mem_map.mp hr' with ⟨r, hr, hfr⟩
    by_cases h : r.id = pid
    · rw [← hfr]
      simp [h]
    · rw [← hfr] at hid'
      rw [upsert_update_id_eq pid rec now r] at hid'
      exact absurd hid' h
  · simp only [hex, if_false, Bool.false_eq_true]
    intro r' hr' hid'
    rcases List.mem_append.mp hr' with hl | hr
    · have hnone : ∀ y ∈ db.products, ¬ y.id = pid := by simpa using hex
      exact absurd hid' (hnone r' hl)
    · rw [List.mem_singleton.mp hr]

/-- The row a primary-key lookup returns after an upsert holds the upserted
record. -/
theorem get_after_upsert_step (db : DbState) (rec : ProductData)
    (now now_ms : Nat) :
    get_product_by_id (upsert_step db rec now now_ms)
      (derive_product_id rec now_ms) = some rec := by
  set pid := derive_product_id rec now_ms with hpid
  set db' := upsert_step db rec now now_ms with hdb'
  have hex : ∃ r ∈ db'.products, (fun r : ProductRow => decide (r.id = pid)) r := by
    rcases upsert_step_hasId_new db rec now now_ms with ⟨r, hr, hid⟩
    exact ⟨r, hr, by simpa using hid⟩
  have hsome := List.find?_isSome.mpr hex
  rcases Option.isSome_iff_exists.mp hsome with ⟨r₀, h₀⟩
  have hpr := List.find?_some h₀
  have hmem := List.mem_of_find?_eq_some h₀
  simp only [decide_eq_true_eq] at hpr
  have hdata := upsert_step_data db rec now now_ms r₀ hmem hpr
  simp [get_product_by_id, h₀, hdata]

/-- Characterization of the bulk fold: the counters split the batch by URL
validity and the final state folds the per-record upsert over exactly the
valid records. -/
theorem bulk_foldl_spec (now now_ms : Nat) (recs : List ProductData) :
    ∀ (s f : Nat) (db : DbState),
      recs.foldl (bulk_step now now_ms) ((s, f), db) =
        ((s + recs.countP (fun r => r.url ≠ ""),
          f + recs.countP (fun r => r.url = "")),
         (recs.filter (fun r => r.url ≠ "")).foldl
           (fun d rec => upsert_step d rec now now_ms) db) := by
  induction recs with
  | nil => intro s f db; simp
  | cons r t ih =>
    intro s f db
    rw [List.foldl_cons]
    by_cases hu : r.url = ""
    · have hstep : bulk_step now now_ms ((s, f), db) r = ((s, f + 1), db) := by
        simp [bulk_step, hu]
      rw [hstep, ih]
      have hc1 : (r :: t).countP (fun x => x.url ≠ "") =
          t.countP (fun x => x.url ≠ "") := by
        rw [List.countP_cons]
        simp [hu]
      have hc2 : (r :: t).countP (fun x => x.url = "") =
          t.countP (fun x => x.url = "") + 1 := by
        rw [List.countP_cons]
        simp [hu]
      have hf : (r :: t).filter (fun x => x.url ≠ "") =
          t.filter (fun x => x.url ≠ "") := by
        rw [List.filter_cons]
        simp [hu]
      rw [hc1, hc2, hf]
      simp only [Prod.mk.injEq]
      refine ⟨⟨?_, ?_⟩, ?_⟩ <;> first | trivial | omega
    · have hstep : bulk_step now now_ms ((s, f), db) r =
          ((s + 1, f), upsert_step db r now now_ms) := by
        simp [bulk_step, hu]
      rw [hstep, ih]
      have hc1 : (r :: t).countP (fun x => x.url ≠ "") =
          t.countP (fun x => x.url ≠ "") + 1 := by
        rw [List.countP_cons]
        simp [hu]
      have hc2 : (r :: t).countP (fun x => x.url = "") =
          t.countP (fun x => x.url = "") := by
        rw [List.countP_cons]
        simp [hu]
      have hf : (r :: t).filter (fun x => x.url ≠ "") =
          r :: t.filter (fun x => x.url ≠ "") := by
        rw [List.filter_cons]
        simp [hu]
      rw [hc1, hc2, hf, List.foldl_cons]
      simp only [Prod.mk.injEq]
      refine ⟨⟨?_, ?_⟩, ?_⟩ <;> first | trivial | omega

/-- The valid and invalid URL counts of a batch sum to its length. -/
theorem countP_url_split (recs : List ProductData) :
    recs.countP (fun r => r.url ≠ "") + recs.countP (fun r => r.url = "") =
      recs.length := by
  induction recs with
  | nil => simp
  | cons r t ih =>
    rw [List.countP_cons, List.countP_cons, List.length_cons]
    by_cases hu : r.url = ""
    · rw [if_neg (by simp [hu]), if_pos (by simp [hu])]
      omega
    · rw [if_pos (by simp [hu]), if_neg (by simp [hu])]
      omega

/-- Folding upserts over further records never removes an id. -/
theorem fold_upsert_preserves_hasId (now now_ms : Nat) :
    ∀ (t : List ProductData) (db : DbState) (pid : String),
      (∃ r ∈ db.products, r.id = pid) →
      ∃ r' ∈ (t.foldl (fun d rec => upsert_step d rec now now_ms) db).products,
        r'.id = pid := by
  intro t
  induction t with
  | nil => intro db pid h; simpa using h
  | cons x xs ih =>
    intro db pid h
    rcases h with ⟨r, hr, hid⟩
    rcases upsert_step_hasId_mono db x now now_ms r hr with ⟨r', hr', hid'⟩
    exact ih (upsert_step db x now now_ms) pid ⟨r', hr', by rw [hid', hid]⟩

/-- After folding upserts over a list containing a record, a row with that
record's derived id is present. -/
theorem fold_upsert_hasId_of_mem (now now_ms : Nat) :
    ∀ (valids : List ProductData) (db : DbState) (rec : ProductData),
      rec ∈ valids →
      ∃ r' ∈ (valids.foldl
          (fun d x => upsert_step d x now now_ms) db).products,
        r'.id = derive_product_id rec now_ms := by
  intro valids
  induction valids with
  | nil => intro db rec h; cases h
  | cons x xs ih =>
    intro db rec h
    rw [List.foldl_cons]
    rcases List.mem_cons.mp h with rfl | hm
    · exact fold_upsert_preserves_hasId now now_ms xs _ _
        (upsert_step_hasId_new db rec now now_ms)
    · exact ih _ rec hm

/-- A primary-key lookup succeeds exactly when a row with the id exists. -/
theorem get_isSome_of_hasId (db : DbState) (pid : String)
    (h : ∃ r ∈ db.products, r.id = pid) :
    (get_product_by_id db pid).isSome = true := by
  rcases h with ⟨r, hr, hid⟩
  have hfind : (db.products.find? (fun r => r.id = pid)).isSome :=
    List.find?_isSome.mpr ⟨r, hr, by simpa using hid⟩
  rcases Option.isSome_iff_exists.mp hfind with ⟨v, hv⟩
  simp [get_product_by_id, hv]

end Lemmas

/-- C3: for a record with a non-empty URL, the stored identity is the
record's explicit id field when non-empty, otherwise the substring of the
URL after the final slash, otherwise (when that substring is empty) the
synthetic millisecond-timestamp fallback. -/
theorem product_id_derivation (rec : ProductData) (now_ms : Nat)
    (hurl : rec.url ≠ "") :
    derive_product_id rec now_ms =
      (if rec.id ≠ "" then rec.id
       else if afterLastSlash rec.url.toList ≠ [] then
         (afterLastSlash rec.url.toList).asString
       else toString now_ms) := by
  unfold derive_product_id
  rw [lastUrlSegment_eq]
  by_cases hid : rec.id = "" <;>
    by_cases hseg : afterLastSlash rec.url.toList = [] <;>
      simp [hid, hseg, asString_eq_empty]

/-- Witness for C3 at the sample record. -/
theorem product_id_derivation_witness :
    sampleRec.url ≠ "" ∧
      derive_product_id sampleRec 7 =
        (if sampleRec.id ≠ "" then sampleRec.id
         else if afterLastSlash sampleRec.url.toList ≠ [] then
           (afterLastSlash sampleRec.url.toList).asString
         else toString 7) :=
  ⟨by decide, product_id_derivation sampleRec 7 (by decide)⟩

/-- C10: upserting a record whose URL is missing or empty returns False and
leaves the database completely unchanged — the refusal happens before any
write to the products table or the search index. -/
theorem upsert_missing_url_noop (db : DbState) (rec : ProductData)
    (now now_ms : Nat) (h : rec.url = "") :
    upsert_product db rec now now_ms = (false, db) := by
  simp [upsert_product, h]

/-- Witness for C10 at a URL-less record. -/
theorem upsert_missing_url_noop_witness :
    noUrlRec.url = "" ∧
      upsert_product ⟨[], []⟩ noUrlRec 100 100000 = (false, ⟨[], []⟩) :=
  ⟨rfl, upsert_missing_url_noop ⟨[], []⟩ noUrlRec 100 100000 rfl⟩

/-- C9: a record inserted with a nested price object reads back by its
derived id as the very same payload, so the numeric current price and the
currency string are reproduced. -/
theorem price_round_trip (db : DbState) (rec : ProductData)
    (now now_ms : Nat) (c : ℚ) (cur : String) (hurl : rec.url ≠ "")
    (hp : rec.price = .obj (some c) cur) :
    get_product_by_id (upsert_product db rec now now_ms).2
        (derive_product_id rec now_ms) = some rec ∧
    ∀ d, get_product_by_id (upsert_product db rec now now_ms).2
        (derive_product_id rec now_ms) = some d →
      d.price = .obj (some c) cur := by
  have h2 : (upsert_product db rec now now_ms).2 = upsert_step db rec now now_ms := by
    simp [upsert_product, hurl]
  rw [h2]
  refine ⟨get_after_upsert_step db rec now now_ms, ?_⟩
  intro d hd
  rw [get_after_upsert_step db rec now now_ms] at hd
  rw [← Option.some.inj hd]
  exact hp

/-- Witness for C9: the sample record with price 99.99 ZAR round-trips. -/
theorem price_round_trip_witness :
    sampleRec.url ≠ "" ∧ sampleRec.price = .obj (some (9999 / 100)) "ZAR" ∧
      (get_product_by_id (upsert_product ⟨[], []⟩ sampleRec 100 100000).2
          (derive_product_id sampleRec 100000) = some sampleRec ∧
       ∀ d, get_product_by_id (upsert_product ⟨[], []⟩ sampleRec 100 100000).2
          (derive_product_id sampleRec 100000) = some d →
        d.price = .obj (some (9999 / 100)) "ZAR") :=
  ⟨by decide, rfl,
    price_round_trip ⟨[], []⟩ sampleRec 100 100000 (9999 / 100) "ZAR"
      (by decide) rfl⟩

/-- C1: after upserting two records with the same derived identity — through
two `upsert_product` calls or one `bulk_upsert_products` batch — the products
table holds exactly one row with that id and the search index exactly one
entry for it. -/
theorem upsert_twice_unique (db : DbState) (rec1 rec2 : ProductData)
    (t1 n1 t2 n2 t3 n3 : Nat) (hwf : DbWF db)
    (h1 : rec1.url ≠ "") (h2 : rec2.url ≠ "")
    (hid : derive_product_id rec1 n1 = derive_product_id rec2 n2)
    (hid3 : derive_product_id rec1 n3 = derive_product_id rec2 n3) :
    ((upsert_product (upsert_product db rec1 t1 n1).2 rec2 t2 n2).2.products.countP
        (fun r => r.id = derive_product_id rec2 n2) = 1 ∧
     (upsert_product (upsert_product db rec1 t1 n1).2 rec2 t2 n2).2.search.countP
        (fun s => s.id = derive_product_id rec2 n2) = 1) ∧
    ((bulk_upsert_products db [rec1, rec2] t3 n3).2.products.countP
        (fun r => r.id = derive_product_id rec2 n3) = 1 ∧
     (bulk_upsert_products db [rec1, rec2] t3 n3).2.search.countP
        (fun s => s.id = derive_product_id rec2 n3) = 1) := by
  have e1 : (upsert_product db rec1 t1 n1).2 = upsert_step db rec1 t1 n1 := by
    simp [upsert_product, h1]
  have e2 : ∀ d : DbState, (upsert_product d rec2 t2 n2).2 = upsert_step d rec2 t2 n2 := by
    intro d
    simp [upsert_product, h2]
  constructor
  · rw [e1, e2]
    exact ⟨upsert_step_count_products _ rec2 t2 n2
        (upsert_step_wf db rec1 t1 n1 hwf),
      upsert_step_count_search _ rec2 t2 n2⟩
  · have eb : (bulk_upsert_products db [rec1, rec2] t3 n3).2 =
        upsert_step (upsert_step db rec1 t3 n3) rec2 t3 n3 := by
      simp [bulk_upsert_products, bulk_step, h1, h2]
    rw [eb]
    exact ⟨upsert_step_count_products _ rec2 t3 n3
        (upsert_step_wf db rec1 t3 n3 hwf),
      upsert_step_count_search _ rec2 t3 n3⟩

/-- Witness for C1: the sample record upserted twice on the empty store. -/
theorem upsert_twice_unique_witness :
    DbWF ⟨[], []⟩ ∧ sampleRec.url ≠ "" ∧
      derive_product_id sampleRec 5 = derive_product_id sampleRec 6 ∧
      derive_product_id sampleRec 9 = derive_product_id sampleRec 9 ∧
      (((upsert_product (upsert_product ⟨[], []⟩ sampleRec 1 5).2
            sampleRec 2 6).2.products.countP
          (fun r => r.id = derive_product_id sampleRec 6) = 1 ∧
        (upsert_product (upsert_product ⟨[], []⟩ sampleRec 1 5).2
            sampleRec 2 6).2.search.countP
          (fun s => s.id = derive_product_id sampleRec 6) = 1) ∧
       ((bulk_upsert_products ⟨[], []⟩ [sampleRec, sampleRec] 3 9).2.products.countP
          (fun r => r.id = derive_product_id sampleRec 9) = 1 ∧
        (bulk_upsert_products ⟨[], []⟩ [sampleRec, sampleRec] 3 9).2.search.countP
          (fun s => s.id = derive_product_id sampleRec 9) = 1)) :=
  ⟨by simp [DbWF], by decide, by decide, rfl,
    upsert_twice_unique ⟨[], []⟩ sampleRec sampleRec 1 5 2 6 3 9
      (by simp [DbWF]) (by decide) (by decide) (by decide) rfl⟩

/-- C2: bulk-upserting a batch of N records of which exactly K lack a URL
returns the pair (N-K, K); every valid record of the batch is afterwards
retrievable by its derived id; and a URL-less record in the middle of a
batch neither changes the resulting state nor aborts the processing of the
records after it — it only bumps the failure count. -/
theorem bulk_upsert_batch (db : DbState) (recs : List ProductData)
    (now now_ms : Nat) :
    (bulk_upsert_products db recs now now_ms).1 =
      (recs.length - recs.countP (fun r => r.url = ""),
       recs.countP (fun r => r.url = "")) ∧
    (∀ rec ∈ recs, rec.url ≠ "" →
      (get_product_by_id (bulk_upsert_products db recs now now_ms).2
        (derive_product_id rec now_ms)).isSome = true) ∧
    (∀ (l1 l2 : List ProductData) (bad : ProductData), bad.url = "" →
      (bulk_upsert_products db (l1 ++ bad :: l2) now now_ms).2 =
        (bulk_upsert_products db (l1 ++ l2) now now_ms).2 ∧
      (bulk_upsert_products db (l1 ++ bad :: l2) now now_ms).1.1 =
        (bulk_upsert_products db (l1 ++ l2) now now_ms).1.1 ∧
      (bulk_upsert_products db (l1 ++ bad :: l2) now now_ms).1.2 =
        (bulk_upsert_products db (l1 ++ l2) now now_ms).1.2 + 1) := by
  refine ⟨?_, ?_, ?_⟩
  · rw [bulk_upsert_products, bulk_foldl_spec]
    have hsplit := countP_url_split recs
    simp only [Nat.zero_add]
    refine congrArg (fun z => (z, _)) ?_
    omega
  · intro rec hrec hurl
    apply get_isSome_of_hasId
    have hmem : rec ∈ recs.filter (fun r => r.url ≠ "") :=
      List.mem_filter.mpr ⟨hrec, by simpa using hurl⟩
    have := fold_upsert_hasId_of_mem now now_ms
      (recs.filter (fun r => r.url ≠ "")) db rec hmem
    rw [bulk_upsert_products, bulk_foldl_spec]
    exact this
  · intro l1 l2 bad hbad
    have hfil : (l1 ++ bad :: l2).filter (fun r => r.url ≠ "") =
        (l1 ++ l2).filter (fun r => r.url ≠ "") := by
      rw [List.filter_append, List.filter_append, List.filter_cons]
      simp [hbad]
    have hc1 : (l1 ++ bad :: l2).countP (fun r => r.url ≠ "") =
        (l1 ++ l2).countP (fun r => r.url ≠ "") := by
      rw [List.countP_append, List.countP_append, List.countP_cons]
      simp [hbad]
    have hc2 : (l1 ++ bad :: l2).countP (fun r => r.url = "") =
        (l1 ++ l2).countP (fun r => r.url = "") + 1 := by
      rw [List.countP_append, List.countP_append, List.countP_cons]
      simp [hbad]
      omega
    rw [bulk_upsert_products, bulk_upsert_products, bulk_foldl_spec,
      bulk_foldl_spec, hfil, hc1, hc2]
    exact ⟨rfl, rfl, rfl⟩

section FindLemmas

/-- Inserting into the descending-order list is a permutation of consing. -/
theorem insertByUpdatedDesc_perm (r : ProductRow) (l : List ProductRow) :
    (insertByUpdatedDesc r l).Perm (r :: l) := by
  induction l with
  | nil => simp [insertByUpdatedDesc]
  | cons x xs ih =>
    simp only [insertByUpdatedDesc]
    by_cases h : x.updated_at ≤ r.updated_at
    · simp [h]
    · rw [if_neg h]
      exact (ih.cons x).trans (List.Perm.swap r x xs)

/-- The descending sort permutes its input. -/
theorem sortByUpdatedDesc_perm (l : List ProductRow) :
    (sortByUpdatedDesc l).Perm l := by
  induction l with
  | nil => simp [sortByUpdatedDesc]
  | cons r rs ih =>
    exact (insertByUpdatedDesc_perm r (sortByUpdatedDesc rs)).trans (ih.cons r)

/-- With no exact-match argument given, the exact-match filter is vacuous. -/
theorem exactWhere_none (r : ProductRow) :
    exactWhere Option.none Option.none Option.none r = true := by
  simp [exactWhere, truthy]

/-- Membership in the collected matching ids equals a search-row match. -/
theorem mem_matching_ids (fts : SearchRow → String → Bool) (db : DbState)
    (q : String) (rid : String) :
    decide (rid ∈ (db.search.filter (fun s => fts s q)).map (·.id)) =
      db.search.any (fun s => fts s q && s.id = rid) := by
  rw [Bool.eq_iff_iff]
  simp only [decide_eq_true_eq, List.mem_map, List.mem_filter,
    List.any_eq_true, Bool.and_eq_true, decide_eq_true_eq]
  constructor
  · rintro ⟨s, ⟨hs, hf⟩, hid⟩
    exact ⟨s, hs, hf, hid⟩
  · rintro ⟨s, hs, hf, hid⟩
    exact ⟨s, ⟨hs, hf⟩, hid⟩

/-- With a truthy query and no exact-match filters, `find_products` is the
paginated query over the conjunction of the full-text match and the price
range (also when the match set is empty, in which case both sides collapse
to no results). -/
theorem find_products_eq (fts : SearchRow → String → Bool) (db : DbState)
    (q : String) (hq : q ≠ "") (mp xp : Option ℚ) (lim off : Nat) :
    find_products fts db (some q) Option.none Option.none Option.none
        mp xp lim off =
      query_rows db
        (fun r => db.search.any (fun s => fts s q && s.id = r.id) &&
          priceWhere mp xp r)
        lim off := by
  have htr : truthy (some q) = true := by simp [truthy, hq]
  simp only [find_products, htr, if_true, Option.getD_some]
  by_cases hnil : (db.search.filter (fun s => fts s q)).map (·.id) = []
  · simp only [hnil, if_pos rfl]
    have hany : ∀ r : ProductRow,
        db.search.any (fun s => fts s q && s.id = r.id) = false := by
      intro r
      have hfil : db.search.filter (fun s => fts s q) = [] :=
        List.map_eq_nil_iff.mp hnil
      have hnof : ∀ s ∈ db.search, ¬ fts s q = true := by
        intro s hs
        have := List.filter_eq_nil_iff.mp hfil s hs
        simpa using this
      rw [List.any_eq_false]
      intro s hs
      simp [hnof s hs]
    have hfilter : db.products.filter
        (fun r => db.search.any (fun s => fts s q && s.id = r.id) &&
          priceWhere mp xp r) = [] := by
      rw [List.filter_eq_nil_iff]
      intro r hr
      simp [hany r]
    simp [query_rows, hfilter, sortByUpdatedDesc]
  · rw [if_neg hnil]
    congr 1
    funext r
    rw [mem_matching_ids fts db q r.id, exactWhere_none r, Bool.and_true]

end FindLemmas

/-- C8: with a non-empty query and no exact-match filters, `find_products`
returns only payloads of rows that both match the query through the search
index and satisfy the price-range filter; its total count is exactly the
number of such rows; with no pagination cut-off the returned payloads are
exactly those rows' payloads; and a query matching no search row
short-circuits to `([], 0)`. -/
theorem find_query_intersects_price (fts : SearchRow → String → Bool)
    (db : DbState) (q : String) (mp xp : Option ℚ) (lim off : Nat)
    (hq : q ≠ "") :
    ((∀ s ∈ db.search, fts s q = false) →
      find_products fts db (some q) Option.none Option.none Option.none
        mp xp lim off = ([], 0)) ∧
    (∀ d ∈ (find_products fts db (some q) Option.none Option.none Option.none
        mp xp lim off).1,
      ∃ r ∈ db.products,
        (db.search.any (fun s => fts s q && s.id = r.id) &&
          priceWhere mp xp r) = true ∧ r.data = d) ∧
    (find_products fts db (some q) Option.none Option.none Option.none
        mp xp lim off).2 =
      (db.products.filter
        (fun r => db.search.any (fun s => fts s q && s.id = r.id) &&
          priceWhere mp xp r)).length ∧
    (off = 0 →
      (db.products.filter
        (fun r => db.search.any (fun s => fts s q && s.id = r.id) &&
          priceWhere mp xp r)).length ≤ lim →
      (find_products fts db (some q) Option.none Option.none Option.none
          mp xp lim off).1.Perm
        ((db.products.filter
          (fun r => db.search.any (fun s => fts s q && s.id = r.id) &&
            priceWhere mp xp r)).map (·.data))) := by
  rw [find_products_eq fts db q hq mp xp lim off]
  refine ⟨?_, ?_, ?_, ?_⟩
  · intro hall
    have hfilter : db.products.filter
        (fun r => db.search.any (fun s => fts s q && s.id = r.id) &&
          priceWhere mp xp r) = [] := by
      rw [List.filter_eq_nil_iff]
      intro r hr
      have hany : db.search.any (fun s => fts s q && s.id = r.id) = false := by
        rw [List.any_eq_false]
        intro s hs
        simp [hall s hs]
      simp [hany]
    simp [query_rows, hfilter, sortByUpdatedDesc]
  · intro d hd
    simp only [query_rows, List.mem_map] at hd
    rcases hd with ⟨r, hr, hdata⟩
    have hr1 : r ∈ sortByUpdatedDesc (db.products.filter
        (fun r => db.search.any (fun s => fts s q && s.id = r.id) &&
          priceWhere mp xp r)) :=
      List.mem_of_mem_drop (List.mem_of_mem_take hr)
    have hr2 := (sortByUpdatedDesc_perm _).mem_iff.mp hr1
    have hr3 := List.mem_filter.mp hr2
    exact ⟨r, hr3.1, hr3.2, hdata⟩
  · simp [query_rows]
  · intro hoff hlen
    simp only [query_rows, hoff, List.drop_zero]
    have hlen2 : (sortByUpdatedDesc (db.products.filter
        (fun r => db.search.any (fun s => fts s q && s.id = r.id) &&
          priceWhere mp xp r))).length ≤ lim := by
      rw [(sortByUpdatedDesc_perm _).length_eq]
      exact hlen
    rw [List.take_of_length_le hlen2]
    exact (sortByUpdatedDesc_perm _).map (·.data)

section CrawlLemmas

/-- A rate-limited outcome is classified as failed and rate limited, and the
URL joins the retry set. -/
theorem classify_step_rl (outcome : String → FetchOutcome) (acc : ClassifyAcc)
    (u : String) (hu : isRateLimitedOutcome (outcome u) = true) :
    classify_step outcome acc u =
      { acc with
          failed := acc.failed + 1, rate_limited := acc.rate_limited + 1,
          retry_urls := acc.retry_urls ++ [u] } := by
  cases ho : outcome u with
  | success e =>
    rw [ho] at hu
    simp [isRateLimitedOutcome] at hu
  | failure sc =>
    cases sc with
    | none =>
      rw [ho] at hu
      simp [isRateLimitedOutcome] at hu
    | some c =>
      rw [ho] at hu
      simp only [isRateLimitedOutcome] at hu
      simp [classify_step, ho, Option.any, hu]

/-- Classifying a batch of all-rate-limited outcomes from any accumulator. -/
theorem classify_foldl_all_rl (outcome : String → FetchOutcome) :
    ∀ (urls : List String) (acc : ClassifyAcc),
      (∀ u ∈ urls, isRateLimitedOutcome (outcome u) = true) →
      urls.foldl (classify_step outcome) acc =
        { acc with
            failed := acc.failed + urls.length,
            rate_limited := acc.rate_limited + urls.length,
            retry_urls := acc.retry_urls ++ urls } := by
  intro urls
  induction urls with
  | nil => intro acc h; simp
  | cons u t ih =>
    intro acc h
    rw [List.foldl_cons,
      classify_step_rl outcome acc u (h u (List.mem_cons_self u t)),
      ih _ (fun v hv => h v (List.mem_cons_of_mem u hv))]
    cases acc
    simp only [ClassifyAcc.mk.injEq, List.length_cons]
    refine ⟨?_, ?_, ?_, ?_, ?_, ?_⟩ <;> first | trivial | omega | simp

/-- A batch with only rate-limited outcomes classifies to no results, every
URL failed and rate limited, and the whole batch as the retry set. -/
theorem classify_results_all_rl (outcome : String → FetchOutcome)
    (urls : List String)
    (h : ∀ u ∈ urls, isRateLimitedOutcome (outcome u) = true) :
    classify_results outcome urls =
      ⟨[], 0, urls.length, 0, urls.length, urls⟩ := by
  rw [classify_results, classify_foldl_all_rl outcome urls _ h]
  simp

/-- Unfolding of `crawl_products` when no retry round fires: the classified
counts are folded into the stats and one dispatch round happened. -/
theorem crawl_products_no_retry (outcome : String → FetchOutcome)
    (urls : List String) (st : CrawlerState) (hu : urls ≠ [])
    (hstop : ¬ ((classify_results outcome urls).retry_urls ≠ [] ∧
      st.stats.retry_count < 3)) :
    crawl_products outcome urls st =
      ((classify_results outcome urls).results,
       { stats :=
           { st.stats with
               urls_processed := urls.length,
               successful := st.stats.successful +
                 (classify_results outcome urls).successful,
               failed := st.stats.failed + (classify_results outcome urls).failed,
               products_found := st.stats.products_found +
                 (classify_results outcome urls).products_found,
               rate_limited := st.stats.rate_limited +
                 (classify_results outcome urls).rate_limited },
         base_delay := st.base_delay },
       [CrawlEvent.round urls st.base_delay]) := by
  rw [crawl_products, if_neg hu, dif_neg hstop]

/-- Unfolding of `crawl_products` when a retry round fires: the shared retry
counter is incremented, the engine sleeps `5 * retry_count`, recurses on
exactly the retry set with the widened window of `retry_round_state`, merges
the retry results behind the first-round results, and restores the original
`base_delay` on the resulting state. -/
theorem crawl_products_retry (outcome : String → FetchOutcome)
    (urls : List String) (st : CrawlerState) (hu : urls ≠ [])
    (hR : (classify_results outcome urls).retry_urls ≠ [])
    (hrc : st.stats.retry_count < 3) :
    crawl_products outcome urls st =
      ((classify_results outcome urls).results ++
         (crawl_products outcome (classify_results outcome urls).retry_urls
           (retry_round_state outcome urls st)).1,
       { (crawl_products outcome (classify_results outcome urls).retry_urls
             (retry_round_state outcome urls st)).2.1 with
           base_delay := st.base_delay },
       CrawlEvent.round urls st.base_delay ::
         CrawlEvent.sleep (5 * (st.stats.retry_count + 1)) ::
         (crawl_products outcome (classify_results outcome urls).retry_urls
           (retry_round_state outcome urls st)).2.2) := by
  rw [crawl_products, if_neg hu, dif_pos ⟨hR, hrc⟩]
  rfl

/-- Whatever the per-URL outcomes, `crawl_products` hands back the rate
limiter with its original `base_delay` window. -/
theorem crawl_base_delay_restored (outcome : String → FetchOutcome)
    (urls : List String) (st : CrawlerState) :
    (crawl_products outcome urls st).2.1.base_delay = st.base_delay := by
  by_cases hu : urls = []
  · rw [crawl_products]
    simp [hu]
  · by_cases h : (classify_results outcome urls).retry_urls ≠ [] ∧
        st.stats.retry_count < 3
    · rw [crawl_products_retry outcome urls st hu h.1 h.2]
    · rw [crawl_products_no_retry outcome urls st hu h]

/-- The shared retry counter never decreases across a crawl. -/
theorem crawl_retry_count_mono (outcome : String → FetchOutcome) :
    ∀ (k : Nat) (urls : List String) (st : CrawlerState),
      3 - st.stats.retry_count ≤ k →
      st.stats.retry_count ≤
        (crawl_products outcome urls st).2.1.stats.retry_count := by
  intro k
  induction k with
  | zero =>
    intro urls st hk
    by_cases hu : urls = []
    · rw [crawl_products]
      simp [hu]
    · have hstop : ¬ ((classify_results outcome urls).retry_urls ≠ [] ∧
          st.stats.retry_count < 3) := by
        intro hcon
        omega
      rw [crawl_products_no_retry outcome urls st hu hstop]
  | succ k ih =>
    intro urls st hk
    by_cases hu : urls = []
    · rw [crawl_products]
      simp [hu]
    · by_cases h : (classify_results outcome urls).retry_urls ≠ [] ∧
          st.stats.retry_count < 3
      · rw [crawl_products_retry outcome urls st hu h.1 h.2]
        have hmeasure : 3 - (retry_round_state outcome urls st).stats.retry_count ≤ k := by
          simp only [retry_round_state]
          omega
        have hinner := ih (classify_results outcome urls).retry_urls
          (retry_round_state outcome urls st) hmeasure
        simp only [retry_round_state] at hinner
        exact le_trans (Nat.le_succ _) hinner
      · rw [crawl_products_no_retry outcome urls st hu h]

/-- All-rate-limited crawls, parameterized by the remaining retry budget. -/
theorem crawl_all_rl (outcome : String → FetchOutcome) :
    ∀ (k : Nat) (urls : List String) (st : CrawlerState),
      urls ≠ [] →
      (∀ u ∈ urls, isRateLimitedOutcome (outcome u) = true) →
      st.stats.retry_count + k = 3 →
      (crawl_products outcome urls st).1 = [] ∧
      (crawl_products outcome urls st).2.1.stats.retry_count = 3 ∧
      (crawl_products outcome urls st).2.1.stats.successful =
        st.stats.successful ∧
      (crawl_products outcome urls st).2.1.stats.products_found =
        st.stats.products_found ∧
      (crawl_products outcome urls st).2.1.stats.failed =
        st.stats.failed + (k + 1) * urls.length ∧
      (crawl_products outcome urls st).2.1.stats.rate_limited =
        st.stats.rate_limited + (k + 1) * urls.length ∧
      (crawl_products outcome urls st).2.2.countP isRoundEvent = k + 1 := by
  intro k
  induction k with
  | zero =>
    intro urls st hu hrl hrc
    have hacc := classify_results_all_rl outcome urls hrl
    have hstop : ¬ ((classify_results outcome urls).retry_urls ≠ [] ∧
        st.stats.retry_count < 3) := by
      intro hcon
      omega
    rw [crawl_products_no_retry outcome urls st hu hstop, hacc]
    simp [isRoundEvent]
    omega
  | succ k ih =>
    intro urls st hu hrl hrc
    have hacc := classify_results_all_rl outcome urls hrl
    have hR : (classify_results outcome urls).retry_urls ≠ [] := by
      rw [hacc]
      exact hu
    have hRurls : (classify_results outcome urls).retry_urls = urls := by
      rw [hacc]
    have hrclt : st.stats.retry_count < 3 := by omega
    have hrrc : (retry_round_state outcome urls st).stats.retry_count =
        st.stats.retry_count + 1 := by
      simp [retry_round_state]
    have hrsucc : (retry_round_state outcome urls st).stats.successful =
        st.stats.successful := by
      simp [retry_round_state, hacc]
    have hrpf : (retry_round_state outcome urls st).stats.products_found =
        st.stats.products_found := by
      simp [retry_round_state, hacc]
    have hrfail : (retry_round_state outcome urls st).stats.failed =
        st.stats.failed + urls.length := by
      simp [retry_round_state, hacc]
    have hrrl : (retry_round_state outcome urls st).stats.rate_limited =
        st.stats.rate_limited + urls.length := by
      simp [retry_round_state, hacc]
    have hinner := ih urls (retry_round_state outcome urls st) hu hrl
      (by rw [hrrc]; omega)
    rcases hinner with ⟨h1, h2, h3, h4, h5, h6, h7⟩
    rw [hrsucc] at h3
    rw [hrpf] at h4
    rw [hrfail] at h5
    rw [hrrl] at h6
    rw [crawl_products_retry outcome urls st hu hR hrclt, hRurls]
    refine ⟨?_, ?_, ?_, ?_, ?_, ?_, ?_⟩
    · simp [hacc, h1]
    · simpa using h2
    · simpa [hacc] using h3
    · simpa [hacc] using h4
    · simp [Nat.succ_mul] at h5 ⊢
      omega
    · simp [Nat.succ_mul] at h6 ⊢
      omega
    · simp only [List.countP_cons, isRoundEvent]
      rw [h7]
      simp [isRoundEvent]

end CrawlLemmas

/-- C4: when every URL of a non-empty batch keeps producing a rate-limited
status, the crawl returns control after the bounded retry rounds: exactly
four dispatch rounds happen (the initial one plus the maximum of three
retries), no product is produced, the success counter is untouched, the
shared retry counter ends at 3, and every URL is counted as failed and
rate limited in every round. -/
theorem crawl_rate_limited_terminates (outcome : String → FetchOutcome)
    (urls : List String) (st : CrawlerState) (hu : urls ≠ [])
    (hrl : ∀ u ∈ urls, isRateLimitedOutcome (outcome u) = true)
    (hrc : st.stats.retry_count = 0) :
    (crawl_products outcome urls st).1 = [] ∧
    (crawl_products outcome urls st).2.1.stats.successful =
      st.stats.successful ∧
    (crawl_products outcome urls st).2.1.stats.retry_count = 3 ∧
    (crawl_products outcome urls st).2.1.stats.failed =
      st.stats.failed + 4 * urls.length ∧
    (crawl_products outcome urls st).2.1.stats.rate_limited =
      st.stats.rate_limited + 4 * urls.length ∧
    (crawl_products outcome urls st).2.2.countP isRoundEvent = 4 := by
  have h := crawl_all_rl outcome 3 urls st hu hrl (by omega)
  rcases h with ⟨h1, h2, h3, h4, h5, h6, h7⟩
  exact ⟨h1, h3, h2, by omega, by omega, h7⟩

/-- Witness for C4: a single URL that is always answered 429. -/
theorem crawl_rate_limited_terminates_witness :
    (["https://x/p"] : List String) ≠ [] ∧
    (∀ u ∈ (["https://x/p"] : List String),
      isRateLimitedOutcome ((fun _ => FetchOutcome.failure (some 429)) u) = true) ∧
    (⟨⟨0, 0, 0, 0, 0, 0⟩, (1, 3)⟩ : CrawlerState).stats.retry_count = 0 ∧
    ((crawl_products (fun _ => FetchOutcome.failure (some 429)) ["https://x/p"]
        ⟨⟨0, 0, 0, 0, 0, 0⟩, (1, 3)⟩).1 = [] ∧
     (crawl_products (fun _ => FetchOutcome.failure (some 429)) ["https://x/p"]
        ⟨⟨0, 0, 0, 0, 0, 0⟩, (1, 3)⟩).2.1.stats.successful =
       (⟨⟨0, 0, 0, 0, 0, 0⟩, (1, 3)⟩ : CrawlerState).stats.successful ∧
     (crawl_products (fun _ => FetchOutcome.failure (some 429)) ["https://x/p"]
        ⟨⟨0, 0, 0, 0, 0, 0⟩, (1, 3)⟩).2.1.stats.retry_count = 3 ∧
     (crawl_products (fun _ => FetchOutcome.failure (some 429)) ["https://x/p"]
        ⟨⟨0, 0, 0, 0, 0, 0⟩, (1, 3)⟩).2.1.stats.failed =
       (⟨⟨0, 0, 0, 0, 0, 0⟩, (1, 3)⟩ : CrawlerState).stats.failed +
         4 * (["https://x/p"] : List String).length ∧
     (crawl_products (fun _ => FetchOutcome.failure (some 429)) ["https://x/p"]
        ⟨⟨0, 0, 0, 0, 0, 0⟩, (1, 3)⟩).2.1.stats.rate_limited =
       (⟨⟨0, 0, 0, 0, 0, 0⟩, (1, 3)⟩ : CrawlerState).stats.rate_limited +
         4 * (["https://x/p"] : List String).length ∧
     (crawl_products (fun _ => FetchOutcome.failure (some 429)) ["https://x/p"]
        ⟨⟨0, 0, 0, 0, 0, 0⟩, (1, 3)⟩).2.2.countP isRoundEvent = 4) :=
  ⟨by decide, by decide, rfl,
    crawl_rate_limited_terminates (fun _ => FetchOutcome.failure (some 429))
      ["https://x/p"] ⟨⟨0, 0, 0, 0, 0, 0⟩, (1, 3)⟩
      (by decide) (by decide) rfl⟩

/-- C5: when a first round leaves a non-empty retry set and the shared retry
counter is below 3, the crawl increments that counter, sleeps `5 *` the new
round number, re-invokes itself on exactly the retry set with the delay
window multiplied by round number + 1 (the state `retry_round_state`),
merges the retry round's results into the overall result, hands the rate
limiter back with the original window whatever the retry rounds did, and the
counter is never reset during those rounds. -/
theorem crawl_retry_mechanism (outcome : String → FetchOutcome)
    (urls : List String) (st : CrawlerState) (hu : urls ≠ [])
    (hR : (classify_results outcome urls).retry_urls ≠ [])
    (hrc : st.stats.retry_count < 3) :
    crawl_products outcome urls st =
      ((classify_results outcome urls).results ++
         (crawl_products outcome (classify_results outcome urls).retry_urls
           (retry_round_state outcome urls st)).1,
       { (crawl_products outcome (classify_results outcome urls).retry_urls
             (retry_round_state outcome urls st)).2.1 with
           base_delay := st.base_delay },
       CrawlEvent.round urls st.base_delay ::
         CrawlEvent.sleep (5 * (st.stats.retry_count + 1)) ::
         (crawl_products outcome (classify_results outcome urls).retry_urls
           (retry_round_state outcome urls st)).2.2) ∧
    (crawl_products outcome urls st).2.1.base_delay = st.base_delay ∧
    (retry_round_state outcome urls st).stats.retry_count ≤
      (crawl_products outcome (classify_results outcome urls).retry_urls
        (retry_round_state outcome urls st)).2.1.stats.retry_count := by
  refine ⟨crawl_products_retry outcome urls st hu hR hrc, ?_, ?_⟩
  · exact crawl_base_delay_restored outcome urls st
  · exact crawl_retry_count_mono outcome 3
      (classify_results outcome urls).retry_urls
      (retry_round_state outcome urls st) (by omega)

/-- Witness for C5: the rate-limited single-URL crawl enters a retry round. -/
theorem crawl_retry_mechanism_witness :
    (["https://x/p"] : List String) ≠ [] ∧
    (classify_results (fun _ => FetchOutcome.failure (some 429))
      ["https://x/p"]).retry_urls ≠ [] ∧
    (⟨⟨0, 0, 0, 0, 0, 0⟩, (1, 3)⟩ : CrawlerState).stats.retry_count < 3 ∧
    (crawl_products (fun _ => FetchOutcome.failure (some 429)) ["https://x/p"]
        ⟨⟨0, 0, 0, 0, 0, 0⟩, (1, 3)⟩).2.1.base_delay =
      (⟨⟨0, 0, 0, 0, 0, 0⟩, (1, 3)⟩ : CrawlerState).base_delay :=
  ⟨by decide, by decide, by decide,
    (crawl_retry_mechanism (fun _ => FetchOutcome.failure (some 429))
      ["https://x/p"] ⟨⟨0, 0, 0, 0, 0, 0⟩, (1, 3)⟩
      (by decide) (by decide) (by decide)).2.1⟩

/-- Witness for C8 on the empty store: the query matches no search row and
the call short-circuits to no results without raising. -/
theorem find_query_intersects_price_witness :
    ("coffee" : String) ≠ "" ∧
    (∀ s ∈ (⟨[], []⟩ : DbState).search,
      (fun s qq => (decide (s.title = qq) : Bool)) s "coffee" = false) ∧
    find_products (fun s qq => (decide (s.title = qq) : Bool)) ⟨[], []⟩
      (some "coffee") Option.none Option.none Option.none
      (some 50) (some 100) 100 0 = ([], 0) :=
  ⟨by decide, by decide,
    (find_query_intersects_price (fun s qq => (decide (s.title = qq) : Bool))
      ⟨[], []⟩ "coffee" (some 50) (some 100) 100 0 (by decide)).1
      (by decide)⟩

/-- C6 counterexample: the claim that a job already sitting in the queue is
never re-enqueued by the checker is false — `is_due` only inspects
`enabled`/`running`/`next_run`, no queued status exists, and `next_run` is
advanced only when a run starts, so a due job still waiting in the queue is
enqueued again by the next polling pass. -/
theorem checker_requeues_queued_job :
    ¬ (∀ (now : Nat) (jobs queue : List CrawlJobState) (j : CrawlJobState),
        j ∈ queue →
        (checker_pass now jobs queue).count j ≤ queue.count j) := by
  intro h
  have h2 := h 10 [sampleJob] [sampleJob] sampleJob (List.mem_singleton_self _)
  revert h2
  decide

/-- C6 (amended): a polling pass of the checker appends to the queue exactly
the jobs with `enabled ∧ ¬running ∧ now ≥ nextRunAt`; in particular a
running job is never enqueued by the checker; but a job already in the queue
and still due is enqueued again (no queued state is tracked). -/
theorem checker_enqueue_exact (now : Nat) (jobs queue : List CrawlJobState)
    (j : CrawlJobState) :
    (j ∈ (checker_pass now jobs queue).drop queue.length ↔
      j ∈ jobs ∧ j.enabled = true ∧ j.running = false ∧ j.next_run ≤ now) ∧
    (j.running = true → j ∉ (checker_pass now jobs queue).drop queue.length) ∧
    (j ∈ queue → is_due now j →
      queue.count j < (checker_pass now jobs (j :: queue)).count j) := by
  have hdrop : (checker_pass now jobs queue).drop queue.length =
      jobs.filter (is_due now) := by
    simp [checker_pass, List.drop_left]
  refine ⟨?_, ?_, ?_⟩
  · rw [hdrop, List.mem_filter]
    simp [is_due, and_assoc]
  · intro hrun hmem
    rw [hdrop] at hmem
    have hdue := (List.mem_filter.mp hmem).2
    simp [is_due, hrun] at hdue
  · intro hq hdue
    simp only [checker_pass, List.count_append, List.count_cons_self]
    have : 1 ≤ queue.count j := List.one_le_count_iff.mpr hq
    omega

/-- C7: an exception raised by a job's crawl-and-store work is caught at the
job boundary: the job ends with status "failed", its stats hold the error
payload, its running flag is cleared, and the worker loop still processes
every other queued job exactly as it would have, before and after the
failing one. -/
theorem job_failure_contained (j : CrawlJobState) (now : Nat) (e : String)
    (l1 l2 : List (CrawlJobState × Except String RunSummary)) :
    (job_run j now (Except.error e)).status = "failed" ∧
    (job_run j now (Except.error e)).stats =
      JobStats.errorPayload
        ("Error running crawl job for " ++ j.retailer_name ++ ": " ++ e) e ∧
    (job_run j now (Except.error e)).running = false ∧
    worker_loop now (l1 ++ (j, Except.error e) :: l2) =
      worker_loop now l1 ++ job_run j now (Except.error e) :: worker_loop now l2 := by
  refine ⟨rfl, rfl, rfl, ?_⟩
  simp [worker_loop]

end SmartShopper
